import Mathlib

/-!
Verification of the youtube-video-generator pipeline logic.

This file gives a shallow embedding of the pure logic of the repository:
the retry/fallback executor and text helpers (`utils.py`), the compliance
checker (`compliance_checker.py`), the topic scorer (`topic_discovery.py`),
and the video assembler's timing logic (`video_assembler.py`), together
with proofs of the behavioural properties claimed for them.

Python's built-in string operations (`in`, `str.lower`, `str.split`,
`str.startswith`, `' '.join`) are modelled by explicit structurally
recursive functions over `List Char` so that every definition is
executable and provable by induction.
-/

set_option maxRecDepth 4000

/-- Models Python's substring test `needle in hay` on character lists:
true iff `needle` occurs contiguously in `hay` (the empty needle always
occurs). -/
def listContains (needle : List Char) : List Char → Bool
  | [] => needle.isEmpty
  | c :: t => needle.isPrefixOf (c :: t) || listContains needle t

/-- Models Python's `needle in hay` on strings. -/
def strContains (needle hay : String) : Bool :=
  listContains needle.toList hay.toList

/-- Models Python's `str.lower()` (ASCII-relevant part used by the
sources: all compared literals are ASCII). -/
def pyLower (s : String) : String := String.mk (s.toList.map Char.toLower)

/-- Models Python's `str.startswith(p)`. -/
def pyStartsWith (s p : String) : Bool := p.toList.isPrefixOf s.toList

/-- Accumulator worker for `pySplit`. `acc` holds the characters of the
word currently being read, in reverse. -/
def pySplitAux : List Char → List Char → List (List Char)
  | [], acc => if acc.isEmpty then [] else [acc.reverse]
  | c :: rest, acc =>
    if c.isWhitespace then
      if acc.isEmpty then pySplitAux rest []
      else acc.reverse :: pySplitAux rest []
    else pySplitAux rest (c :: acc)

/-- Models Python's no-argument `str.split()`: maximal runs of
non-whitespace characters, with no empty words. -/
def pySplit (l : List Char) : List (List Char) := pySplitAux l []

/-- Models Python's `len(text.split())` word count. -/
def pyWordCount (s : String) : Nat := (pySplit s.toList).length

/-- Models Python's `' '.join(words)` on character lists. -/
def joinSp : List (List Char) → List Char
  | [] => []
  | [w] => w
  | w :: ws => w ++ ' ' :: joinSp ws

-- =========================================================================
-- utils.handle_errors : the retry/fallback executor
-- =========================================================================

/-- Outcome of one run of the `handle_errors` wrapper. `noAttempts` is the
Python wrapper falling off the end of `for attempt in range(0)` and
implicitly returning `None`. -/
inductive RunResult (ε α : Type) where
  | success (a : α) (attempt : Nat)
  | fellback (a : α)
  | raised (e : ε)
  | noAttempts
  deriving DecidableEq, Repr

/-- Trace of one run of the wrapper: the outcome, the back-off sleeps
performed (in order), and how many times the wrapped operation was
invoked. -/
structure RunTrace (ε α : Type) where
  result : RunResult ε α
  sleeps : List ℚ
  calls : Nat
  deriving DecidableEq, Repr

/-- The loop body of `utils.handle_errors`: `remaining` counts the
attempts still available (`retry_count - attempt`), `attempt` is the
0-based index of the current attempt, and `op i` is the outcome the
wrapped operation would produce on attempt `i`. Mirrors:
attempt succeeds => return result; attempt fails and is not the last =>
sleep `retry_delay * 2 ** attempt`, retry; last attempt fails =>
return fallback if it is not None, else re-raise. -/
def handleErrorsLoop (op : Nat → Except ε α) (retry_delay : ℚ)
    (fallback : Option α) : Nat → Nat → RunTrace ε α
  | 0, _ => ⟨.noAttempts, [], 0⟩
  | remaining + 1, attempt =>
    match op attempt with
    | .ok a => ⟨.success a attempt, [], 1⟩
    | .error e =>
      match remaining with
      | 0 =>
        match fallback with
        | some v => ⟨.fellback v, [], 1⟩
        | none => ⟨.raised e, [], 1⟩
      | remaining' + 1 =>
        let t := handleErrorsLoop op retry_delay fallback (remaining' + 1) (attempt + 1)
        ⟨t.result, retry_delay * 2 ^ attempt :: t.sleeps, t.calls + 1⟩

/-- Models `utils.handle_errors(retry_count, retry_delay, fallback)`
applied to an operation.  The Python `fallback` parameter defaults to
`None`; `Option.none` models both the default and an explicitly supplied
`None` (the exhaustion branch tests `fallback is not None`). -/
def handle_errors (retry_count : Nat) (retry_delay : ℚ) (fallback : Option α)
    (op : Nat → Except ε α) : RunTrace ε α :=
  handleErrorsLoop op retry_delay fallback retry_count 0

-- =========================================================================
-- utils.chunk_text
-- =========================================================================

/-- The loop of `utils.chunk_text` over the word list: `current` is the
word list of the chunk being built and `current_len` the running length
counter, exactly as in the Python loop (note the counter is reset to
`len(word)` without the `+ 1` in the overflow branch, and that the
overflow branch emits `' '.join(current_chunk)` even when
`current_chunk` is empty). -/
def chunkAux (max_chars : Nat) : List (List Char) → List (List Char) → Nat → List (List Char)
  | [], current, _ => if current.isEmpty then [] else [joinSp current]
  | w :: rest, current, current_len =>
    if current_len + w.length + 1 > max_chars then
      joinSp current :: chunkAux max_chars rest [w] w.length
    else
      chunkAux max_chars rest (current ++ [w]) (current_len + w.length + 1)

/-- Models `utils.chunk_text(text, max_chars)`. -/
def chunk_text (text : String) (max_chars : Nat) : List String :=
  (chunkAux max_chars (pySplit text.toList) [] 0).map String.mk

-- =========================================================================
-- utils.estimate_duration
-- =========================================================================

/-- Models Python's `int()` conversion of a rational value: truncation
toward zero. -/
def pyInt (x : ℚ) : Int := if x < 0 then ⌈x⌉ else ⌊x⌋

/-- Models `utils.estimate_duration(word_count, wpm)`:
`int((word_count / wpm) * 60)`. -/
def estimate_duration (word_count wpm : Nat) : Int :=
  pyInt ((word_count : ℚ) / (wpm : ℚ) * 60)

/-- Models `utils.estimate_duration(word_count)` with the default
`wpm=150`, as called from `Script.__post_init__`. -/
def estimate_duration_default (word_count : Nat) : Int :=
  estimate_duration word_count 150

-- quick sanity examples (kept as anonymous examples, they are part of the
-- development, not of any claim)
example : estimate_duration_default 150 = 60 := by
  norm_num [estimate_duration_default, estimate_duration, pyInt]
example : pySplit "a  b".toList = [['a'], ['b']] := by decide
example : chunk_text "aa bb" 2 = ["", "aa", "bb"] := by decide

-- =========================================================================
-- visual_sourcer.Visual
-- =========================================================================

/-- Models the `Visual` dataclass of `visual_sourcer.py` (the fields the
verified logic reads). `type` is "video" or "image". -/
structure Visual where
  id : String
  type : String
  source : String
  url : String
  download_url : String
  local_path : Option String := none
  width : Nat := 0
  height : Nat := 0
  duration : ℚ := 0
  description : String := ""
  deriving DecidableEq, Repr

-- =========================================================================
-- compliance_checker.ComplianceChecker
-- =========================================================================

/-- `ComplianceChecker.SAFE_VISUAL_SOURCES`. -/
def SAFE_VISUAL_SOURCES : List String :=
  ["pexels", "pixabay", "pollinations", "unsplash", "ai_generated"]

/-- `ComplianceChecker.RISKY_SOURCES`. -/
def RISKY_SOURCES : List String :=
  ["youtube", "twitter", "tiktok", "instagram", "unknown"]

/-- The per-visual branch of `ComplianceChecker.check_visuals`: a source
matching a safe substring is counted safe; otherwise one matching a risky
substring is counted risky; otherwise it is unknown. -/
def classify_source (source : String) : String :=
  let s := pyLower source
  if SAFE_VISUAL_SOURCES.any (fun safe => strContains safe s) then "safe"
  else if RISKY_SOURCES.any (fun risky => strContains risky s) then "risky"
  else "unknown"

/-- One iteration of the `for visual in visuals` loop of `check_visuals`,
threading `(safe_count, risky_count, issues)`. -/
def visualStep (acc : Nat × Nat × List String) (v : Visual) : Nat × Nat × List String :=
  let source := pyLower v.source
  if SAFE_VISUAL_SOURCES.any (fun safe => strContains safe source) then
    (acc.1 + 1, acc.2.1, acc.2.2)
  else if RISKY_SOURCES.any (fun risky => strContains risky source) then
    (acc.1, acc.2.1 + 1, acc.2.2 ++ ["Risky visual source: " ++ v.source ++ " - " ++ v.id])
  else
    (acc.1, acc.2.1, acc.2.2 ++ ["Unknown source needs review: " ++ v.source])

/-- Models `ComplianceChecker.check_visuals`: returns `(status, issues)`. -/
def check_visuals (visuals : List Visual) : String × List String :=
  let res := visuals.foldl visualStep (0, 0, [])
  let status :=
    if res.2.1 > 0 then "risk"
    else if res.1 = visuals.length then "safe"
    else "warning"
  (status, res.2.2)

/-- The `positive_phrases` list of
`ComplianceChecker.check_script_originality`. -/
def positive_phrases : List String :=
  ["in my analysis", "what this means", "the implications",
   "looking at this", "my take on", "as we can see",
   "this suggests", "the data shows", "according to",
   "experts believe", "studies indicate", "research shows"]

/-- The `originality_score` computed by
`ComplianceChecker.check_script_originality`: +10 for each phrase of
`positive_phrases` contained in the lower-cased script (a membership
test, once per phrase), plus +20 when the word count is at least 2000. -/
def originality_score (script_text : String) : Nat :=
  let script_lower := pyLower script_text
  let s := positive_phrases.foldl
    (fun acc phrase => if strContains phrase script_lower then acc + 10 else acc) 0
  let word_count := pyWordCount script_text
  if word_count ≥ 2000 then s + 20 else s

/-- Models `ComplianceChecker.check_script_originality`: returns
`(status, issues)`. -/
def check_script_originality (script_text : String) : String × List String :=
  let s := originality_score script_text
  if s ≥ 50 then ("high", [])
  else if s ≥ 30 then ("medium", [])
  else ("low", ["Script may lack sufficient original commentary"])

/-- Models the `ComplianceReport` dataclass. -/
structure ComplianceReport where
  passed : Bool
  score : Nat
  visual_safety : String
  content_originality : String
  monetization_ready : Bool
  issues : List String
  recommendations : List String
  deriving DecidableEq, Repr

/-- The fixed recommendation list of
`ComplianceChecker.check_monetization_requirements` (returned with
`ready = True`). -/
def monetization_recommendations : List String :=
  ["Use only stock footage (Pexels/Pixabay) or AI images (Pollinations)",
   "Add original analysis and commentary throughout",
   "Upload manually to avoid automation detection",
   "Review video fully before making public",
   "Write unique description (not template-only)",
   "Create custom thumbnail through YT Studio"]

/-- Models `ComplianceChecker.run_full_check(visuals, script_text)`.
Python's `if visuals:` / `if script_text:` truthiness tests are the
emptiness tests below; `overall_score` is integer (floor) division of
the score sum as with Python's `//`. -/
def run_full_check (visuals : List Visual) (script_text : String) : ComplianceReport :=
  let part1 : String × List String × Nat :=
    if visuals.isEmpty then ("unknown", [], 50)
    else
      let r := check_visuals visuals
      (r.1, r.2, if r.1 = "safe" then 100 else if r.1 = "warning" then 50 else 20)
  let part2 : String × List String × Nat :=
    if script_text.isEmpty then ("unknown", [], 50)
    else
      let r := check_script_originality script_text
      (r.1, r.2, if r.1 = "high" then 100 else if r.1 = "medium" then 70 else 40)
  let visual_status := part1.1
  let originality_status := part2.1
  let issues := part1.2.1 ++ part2.2.1
  let scores := [part1.2.2, part2.2.2]
  let overall_score := scores.sum / scores.length
  let passed : Bool := decide (overall_score ≥ 70) && !(visual_status == "risk")
  { passed := passed
    score := overall_score
    visual_safety := visual_status
    content_originality := if script_text.isEmpty then "unknown" else originality_status
    monetization_ready := true && passed
    issues := issues
    recommendations := monetization_recommendations }

-- =========================================================================
-- topic_discovery : Topic and _calculate_score
-- =========================================================================

/-- Models the `Topic` dataclass of `topic_discovery.py`. `score` holds
the engagement value set at construction (Reddit post score; 0 for
Google News items). -/
structure Topic where
  id : String
  title : String
  source : String
  url : String
  published : String
  score : ℚ
  keywords_matched : List String
  summary : String := ""
  deriving DecidableEq, Repr

/-- `CONTENT_CONFIG["keywords"]` from `config.py`. -/
def content_keywords : List String :=
  ["AI layoffs 2026", "robotics unemployment", "artificial intelligence jobs",
   "automation job loss", "humanoid robots workers", "ChatGPT replacing jobs",
   "AI mass unemployment", "robot workforce 2026"]

/-- The `high_value` term list of `TopicDiscovery._calculate_score`. -/
def high_value_terms : List String :=
  ["mass layoff", "job loss", "unemploy", "replace", "automat", "robot"]

/-- The `viral_terms` list of `TopicDiscovery._calculate_score`. -/
def viral_terms : List String :=
  ["breaking", "just", "shock", "warn", "crisis", "fear", "million"]

/-- Models `TopicDiscovery._calculate_score(topic)`. The datetime
computation `(datetime.now(tz) - fromisoformat(published)).days` is
abstracted by the oracle `daysOld : String → Option Int`; `none` models
a timestamp that fails to parse (the bare `except: pass`), in which case
no recency bonus is added. The function returns the final score; the
keyword increments and all other branches mirror the Python line by
line. -/
def calculate_score (daysOld : String → Option Int) (topic : Topic) : ℚ :=
  let title_lower := pyLower topic.title
  let summary_lower := pyLower topic.summary
  let text := title_lower ++ " " ++ summary_lower
  let score : ℚ := 0
  let score := content_keywords.foldl
    (fun s keyword => if strContains (pyLower keyword) text then s + 20 else s) score
  let score := high_value_terms.foldl
    (fun s term => if strContains term text then s + 15 else s) score
  let score := viral_terms.foldl
    (fun s term => if strContains term text then s + 5 else s) score
  let score := if strContains "2026" text || strContains "2025" text then score + 10 else score
  let score := if pyStartsWith topic.source "reddit" then score + min (topic.score / 100) 20 else score
  let score :=
    match daysOld topic.published with
    | some d => if d ≤ 1 then score + 30 else if d ≤ 3 then score + 15 else if d ≤ 7 then score + 5 else score
    | none => score
  score

-- =========================================================================
-- video_assembler.VideoAssembler : _load_visual and assemble timing
-- =========================================================================

/-- A MoviePy clip, reduced to the only attribute the timing logic
reads: its duration in seconds. -/
structure Clip where
  duration : ℚ
  deriving DecidableEq, Repr

/-- Models `VideoAssembler._load_visual(visual, target_duration)`.
External effects are abstracted by two oracles: `fileExists p` models
`Path(p).exists()`, and `loadFails v` models the `try` body raising (a
corrupt file, a MoviePy error, a zero-duration video making
`int(target/duration)` divide by zero, ...), which the function catches
and turns into `None`.  A video clip shorter than the target is looped
`int(target/duration) + 1` times, then `subclip(0, target)` trims
whatever was produced to the target duration; an image clip is given the
target duration directly. -/
def load_visual (fileExists : String → Bool) (loadFails : Visual → Bool)
    (rawDuration : Visual → ℚ) (v : Visual) (target_duration : ℚ) : Option Clip :=
  match v.local_path with
  | none => none
  | some p =>
    if !fileExists p then none
    else if loadFails v then none
    else if v.type = "video" then
      let d := rawDuration v
      if d < target_duration then
        if d ≤ 0 then none
        else
          let loops : Int := pyInt (target_duration / d) + 1
          let looped := d * (loops : ℚ)
          some ⟨min looped target_duration⟩
      else some ⟨min d target_duration⟩
    else some ⟨target_duration⟩

/-- Trace of one `VideoAssembler.assemble` run: the produced visual-slot
clips (or the raised error message), the error records logged to the
assembly metrics as `(error_type, recoverable)` pairs, whether
`metrics.finalize` was reached with `success=True`, and whether the
render step (`write_videofile`, the only write into the output
directory) was reached. -/
structure AssembleTrace where
  result : Except String (List Clip)
  errors : List (String × Bool)
  finalized_success : Bool
  rendered : Bool
  deriving Repr

/-- Models the timing core of `VideoAssembler.assemble`: audio duration
is read from the narration file (`audio_duration` here); with zero
visuals a non-recoverable `no_visuals` error is logged and
`ValueError("No visuals to assemble")` is raised, which the outer
handler logs as `assembly_failed` and re-raises after finalizing with
`success=False` — before the render step.  Otherwise each visual is
loaded at `segment_duration = audio_duration / len(visuals)`, a failed
load contributing a placeholder `ImageClip` of the same duration and a
recoverable `visual_load_failed` error record. -/
def assemble (fileExists : String → Bool) (loadFails : Visual → Bool)
    (rawDuration : Visual → ℚ) (audio_duration : ℚ) (visuals : List Visual) : AssembleTrace :=
  if visuals.length = 0 then
    { result := .error "No visuals to assemble"
      errors := [("no_visuals", false), ("assembly_failed", false)]
      finalized_success := false
      rendered := false }
  else
    let segment_duration := audio_duration / (visuals.length : ℚ)
    let loaded := visuals.map (fun v => load_visual fileExists loadFails rawDuration v segment_duration)
    let visual_clips := loaded.map (fun o => o.getD ⟨segment_duration⟩)
    { result := .ok visual_clips
      errors := (loaded.filter (fun o => o.isNone)).map (fun _ => ("visual_load_failed", true))
      finalized_success := true
      rendered := true }

-- =========================================================================
-- spec-side definitions (used only to state claims against the code)
-- =========================================================================

/-- Spec-side definition for claim C5's wording: the number of positions
at which `needle` occurs in `hay` (each occurrence of a phrase counted,
not just its presence). -/
def countOccurrences (needle : List Char) : List Char → Nat
  | [] => 0
  | c :: t => (if !needle.isEmpty && needle.isPrefixOf (c :: t) then 1 else 0) + countOccurrences needle t

/-- Spec-side definition for claim C5's wording: 10 points per
occurrence of each positive phrase, plus the 20-point length bonus. -/
def claimed_occurrence_score (script_text : String) : Nat :=
  let script_lower := pyLower script_text
  10 * (positive_phrases.map (fun p => countOccurrences p.toList script_lower.toList)).sum
    + (if pyWordCount script_text ≥ 2000 then 20 else 0)

/-- Spec-side definition for claim C7's wording: concatenating chunks
with single spaces. -/
def join_with_spaces (chunks : List String) : String :=
  String.mk (joinSp (chunks.map String.toList))

/-- Spec-side definition for claim C7's wording: collapsing whitespace
(single spaces between words, none at the ends). -/
def collapse_ws (s : String) : String := String.mk (joinSp (pySplit s.toList))

-- =========================================================================
-- helper lemmas : score folds
-- =========================================================================

/-- A fold adding a constant rational for each element satisfying a test
equals the start value plus the constant times the matching count. -/
theorem foldl_if_add_rat (f : String → Bool) (c : ℚ) :
    ∀ (l : List String) (init : ℚ),
      l.foldl (fun s k => if f k then s + c else s) init
        = init + c * ((l.filter f).length : ℚ)
  | [], init => by simp
  | k :: t, init => by
    by_cases hf : f k
    · simp only [List.foldl_cons, hf, if_pos, List.filter_cons_of_pos]
      rw [foldl_if_add_rat f c t]
      push_cast [List.length_cons]
      ring
    · simp only [List.foldl_cons, hf, if_neg, Bool.false_eq_true, not_false_iff,
        List.filter_cons_of_neg]
      rw [foldl_if_add_rat f c t]

/-- Natural-number version of `foldl_if_add_rat`. -/
theorem foldl_if_add_nat (f : String → Bool) (c : Nat) :
    ∀ (l : List String) (init : Nat),
      l.foldl (fun s k => if f k then s + c else s) init
        = init + c * (l.filter f).length
  | [], init => by simp
  | k :: t, init => by
    by_cases hf : f k
    · simp only [List.foldl_cons, hf, if_pos, List.filter_cons_of_pos]
      rw [foldl_if_add_nat f c t]
      simp only [List.length_cons]
      ring
    · simp only [List.foldl_cons, hf, if_neg, Bool.false_eq_true, not_false_iff,
        List.filter_cons_of_neg]
      rw [foldl_if_add_nat f c t]

-- =========================================================================
-- Claim C9
-- =========================================================================

/-- Claim C9: `estimated_duration(word_count) = floor(word_count / 150 * 60)`
is monotonically (non-strictly) increasing in `word_count` over the
natural numbers, and `estimated_duration(150) = 60`. -/
theorem estimate_duration_props :
    (∀ w : Nat, estimate_duration_default w = ⌊(w : ℚ) / 150 * 60⌋)
    ∧ Monotone estimate_duration_default
    ∧ estimate_duration_default 150 = 60 := by
  have hfloor : ∀ w : Nat, estimate_duration_default w = ⌊(w : ℚ) / 150 * 60⌋ := by
    intro w
    have hnn : (0 : ℚ) ≤ (w : ℚ) / 150 * 60 := by positivity
    simp [estimate_duration_default, estimate_duration, pyInt, not_lt.mpr hnn]
  refine ⟨hfloor, ?_, ?_⟩
  · intro a b hab
    rw [hfloor a, hfloor b]
    have hc : (a : ℚ) ≤ (b : ℚ) := by exact_mod_cast hab
    have h2 : (a : ℚ) / 150 * 60 ≤ (b : ℚ) / 150 * 60 := by gcongr
    exact Int.floor_mono h2
  · rw [hfloor 150]
    norm_num

-- =========================================================================
-- Claim C4
-- =========================================================================

/-- The topic of claim C4's scenario: title
"AI layoffs hit 2 million workers in 2026", a Google-News-like source,
empty summary, engagement score 0 (Google News items are created with
`score=0.0`). -/
def topicC4 : Topic :=
  { id := "t1", title := "AI layoffs hit 2 million workers in 2026",
    source := "google_news", url := "", published := "2026-10-12T00:00:00",
    score := 0, keywords_matched := [], summary := "" }

/-- The lower-cased text scored by `_calculate_score` for `topicC4`. -/
def textC4 : String := pyLower topicC4.title ++ " " ++ pyLower topicC4.summary

/-- Evaluation of the scorer on the C4 topic, granting the best case for
the claim: the timestamp parses and the item is 0 days old (+30). -/
theorem scoreC4_eval : calculate_score (fun _ => some 0) topicC4 = 45 := by
  have h1 : (content_keywords.filter (fun k => strContains (pyLower k) textC4)).length = 0 := by
    decide
  have h2 : (high_value_terms.filter (fun t => strContains t textC4)).length = 0 := by
    decide
  have h3 : (viral_terms.filter (fun t => strContains t textC4)).length = 1 := by
    decide
  have h4 : (strContains "2026" textC4 || strContains "2025" textC4) = true := by decide
  have h5 : pyStartsWith topicC4.source "reddit" = false := by decide
  have htext : pyLower topicC4.title ++ " " ++ pyLower topicC4.summary = textC4 := rfl
  simp only [calculate_score, htext]
  rw [foldl_if_add_rat, foldl_if_add_rat, foldl_if_add_rat, h1, h2, h3, h4, h5]
  norm_num

/-- Claim C4 counterexample: for the scenario topic the computed score is
not at least 75 — even granting the recency bonus (+30), the score is 45:
the configured keyword "AI layoffs 2026" is not a contiguous substring of
the text, and no high-value term matches (the list contains
"mass layoff", not "layoff"). -/
theorem scoreC4_below_75 : ¬(calculate_score (fun _ => some 0) topicC4 ≥ 75) := by
  rw [scoreC4_eval]
  norm_num

/-- Claim C4 amended: for the scenario topic the score is 45 = +5 (viral
term "million") + 10 (year "2026") + 30 (recency when the timestamp
parses as published today); no configured keyword matches (substring
matching requires the whole phrase "ai layoffs 2026" contiguously) and
no high-value term matches ("layoff" alone is not in the list, only
"mass layoff" is); 45 < 75. -/
theorem scoreC4_amended :
    calculate_score (fun _ => some 0) topicC4 = 45
    ∧ (content_keywords.filter (fun k => strContains (pyLower k) textC4)).length = 0
    ∧ (high_value_terms.filter (fun t => strContains t textC4)).length = 0
    ∧ (viral_terms.filter (fun t => strContains t textC4)) = ["million"]
    ∧ strContains "2026" textC4 = true
    ∧ calculate_score (fun _ => some 0) topicC4 < 75 := by
  refine ⟨scoreC4_eval, by decide, by decide, by decide, by decide, ?_⟩
  rw [scoreC4_eval]
  norm_num

-- =========================================================================
-- Claim C5 : counterexample
-- =========================================================================

/-- A script in which the phrase "according to" occurs twice. -/
def scriptC5cex : String := "according to according to"

/-- Claim C5 counterexample: the code scores +10 per phrase *present*
(a membership test), not per occurrence: a script with two occurrences
of "according to" scores 10, while the claimed per-occurrence formula
gives 20. -/
theorem originality_not_per_occurrence :
    originality_score scriptC5cex = 10
    ∧ claimed_occurrence_score scriptC5cex = 20
    ∧ originality_score scriptC5cex ≠ claimed_occurrence_score scriptC5cex := by
  decide

-- =========================================================================
-- Claim C5 : amended
-- =========================================================================

/-- Claim C5 amended: the originality score equals 10 per *distinct*
phrase of the fixed list contained in the lower-cased script (each phrase
counted once, however many times it occurs) plus the 20-point bonus when
the word count is at least 2000; the tier is "high" when the total is
≥ 50, "medium" when ≥ 30, "low" otherwise; in particular a script in
which exactly 6 distinct positive phrases occur and with word count
≥ 2000 scores 80 and is classified "high". -/
theorem originality_score_spec (script_text : String) :
    originality_score script_text
      = 10 * (positive_phrases.filter (fun p => strContains p (pyLower script_text))).length
        + (if pyWordCount script_text ≥ 2000 then 20 else 0)
    ∧ (check_script_originality script_text).1
      = (if originality_score script_text ≥ 50 then "high"
         else if originality_score script_text ≥ 30 then "medium" else "low")
    ∧ ((positive_phrases.filter (fun p => strContains p (pyLower script_text))).length = 6 →
        pyWordCount script_text ≥ 2000 →
        originality_score script_text = 80 ∧ (check_script_originality script_text).1 = "high")
    := by
  have hscore : originality_score script_text
      = 10 * (positive_phrases.filter (fun p => strContains p (pyLower script_text))).length
        + (if pyWordCount script_text ≥ 2000 then 20 else 0) := by
    simp only [originality_score]
    rw [foldl_if_add_nat]
    split <;> ring
  have htier : (check_script_originality script_text).1
      = (if originality_score script_text ≥ 50 then "high"
         else if originality_score script_text ≥ 30 then "medium" else "low") := by
    simp only [check_script_originality]
    split
    · rfl
    · split <;> rfl
  refine ⟨hscore, htier, fun h6 hwc => ?_⟩
  have h80 : originality_score script_text = 80 := by
    rw [hscore, h6, if_pos hwc]
  refine ⟨h80, ?_⟩
  rw [htier, h80]
  norm_num

-- =========================================================================
-- Claim C2
-- =========================================================================

/-- A step of the `check_visuals` loop never decreases the risky count. -/
theorem visualStep_risky_le (acc : Nat × Nat × List String) (v : Visual) :
    acc.2.1 ≤ (visualStep acc v).2.1 := by
  simp only [visualStep]
  split
  · exact le_refl _
  · split
    · exact Nat.le_succ _
    · exact le_refl _

/-- A step of the `check_visuals` loop on a risky-classified visual
increments the risky count. -/
theorem visualStep_risky_eq (acc : Nat × Nat × List String) (v : Visual)
    (h : classify_source v.source = "risky") :
    (visualStep acc v).2.1 = acc.2.1 + 1 := by
  simp only [classify_source] at h
  simp only [visualStep]
  split
  · rename_i hsafe
    rw [if_pos hsafe] at h
    exact absurd h (by decide)
  · rename_i hsafe
    split
    · rfl
    · rename_i hrisky
      rw [if_neg hsafe, if_neg hrisky] at h
      exact absurd h (by decide)

/-- Folding the `check_visuals` loop never decreases the risky count. -/
theorem foldl_visualStep_le :
    ∀ (l : List Visual) (acc : Nat × Nat × List String),
      acc.2.1 ≤ (l.foldl visualStep acc).2.1
  | [], _ => le_refl _
  | v :: t, acc =>
    le_trans (visualStep_risky_le acc v) (foldl_visualStep_le t (visualStep acc v))

/-- If some member of the list is risky-classified, the final risky count
is positive. -/
theorem foldl_visualStep_pos :
    ∀ (l : List Visual) (acc : Nat × Nat × List String) (v : Visual),
      v ∈ l → classify_source v.source = "risky" →
      0 < (l.foldl visualStep acc).2.1
  | [], _, _, hv, _ => absurd hv (List.not_mem_nil _)
  | w :: t, acc, v, hv, hrisky => by
    rcases List.mem_cons.mp hv with heq | hmem
    · subst heq
      have h1 : (visualStep acc v).2.1 = acc.2.1 + 1 := visualStep_risky_eq acc v hrisky
      have h2 := foldl_visualStep_le t (visualStep acc v)
      simp only [List.foldl_cons]
      omega
    · simpa only [List.foldl_cons] using foldl_visualStep_pos t (visualStep acc w) v hmem hrisky

/-- `check_visuals` reports status "risk" whenever some visual's source
is risky-classified. -/
theorem check_visuals_risk (visuals : List Visual) (v : Visual)
    (hv : v ∈ visuals) (hrisky : classify_source v.source = "risky") :
    (check_visuals visuals).1 = "risk" := by
  have hpos := foldl_visualStep_pos visuals (0, 0, []) v hv hrisky
  simp only [check_visuals]
  rw [if_pos hpos]

/-- Claim C2: any compliance check over a visual list containing at least
one risky-source visual reports `visual_safety = "risk"` and
`passed = false`, whatever the script and the overall score. -/
theorem risky_visual_forces_fail (visuals : List Visual) (script_text : String)
    (v : Visual) (hv : v ∈ visuals) (hrisky : classify_source v.source = "risky") :
    (run_full_check visuals script_text).visual_safety = "risk"
    ∧ (run_full_check visuals script_text).passed = false := by
  have hne : visuals.isEmpty = false := List.isEmpty_eq_false.mpr (List.ne_nil_of_mem hv)
  have hcv : (check_visuals visuals).1 = "risk" := check_visuals_risk visuals v hv hrisky
  simp only [run_full_check, hne, Bool.false_eq_true, if_neg, if_false, hcv]
  constructor
  · trivial
  · simp

/-- Claim C2 witness: a single visual sourced from "youtube" is
risky-classified and forces a failed report. -/
theorem risky_visual_forces_fail_witness :
    ({ id := "v1", type := "video", source := "youtube", url := "",
       download_url := "" } : Visual) ∈
        [({ id := "v1", type := "video", source := "youtube", url := "",
            download_url := "" } : Visual)]
    ∧ classify_source "youtube" = "risky"
    ∧ (run_full_check
        [{ id := "v1", type := "video", source := "youtube", url := "",
           download_url := "" }] "").visual_safety = "risk"
    ∧ (run_full_check
        [{ id := "v1", type := "video", source := "youtube", url := "",
           download_url := "" }] "").passed = false := by
  refine ⟨List.mem_singleton.mpr rfl, by decide, ?_⟩
  exact risky_visual_forces_fail _ "" _ (List.mem_singleton.mpr rfl) (by decide)

-- =========================================================================
-- Claim C1 : retry executor
-- =========================================================================

/-- Unfolding equation: no attempts available. -/
theorem loop_zero (op : Nat → Except ε α) (D : ℚ) (fb : Option α) (a : Nat) :
    handleErrorsLoop op D fb 0 a = ⟨.noAttempts, [], 0⟩ := rfl

/-- Unfolding equation: the current attempt succeeds. -/
theorem loop_ok {op : Nat → Except ε α} {a : Nat} {v : α} (D : ℚ) (fb : Option α)
    (r : Nat) (h : op a = .ok v) :
    handleErrorsLoop op D fb (r + 1) a = ⟨.success v a, [], 1⟩ := by
  rw [handleErrorsLoop, h]

/-- Unfolding equation: the last attempt fails with a fallback present. -/
theorem loop_last_some {op : Nat → Except ε α} {a : Nat} {e : ε} (D : ℚ) (v : α)
    (h : op a = .error e) :
    handleErrorsLoop op D (some v) 1 a = ⟨.fellback v, [], 1⟩ := by
  rw [handleErrorsLoop, h]

/-- Unfolding equation: the last attempt fails with no fallback. -/
theorem loop_last_none {op : Nat → Except ε α} {a : Nat} {e : ε} (D : ℚ)
    (h : op a = .error e) :
    handleErrorsLoop op D none 1 a = ⟨.raised e, [], 1⟩ := by
  rw [handleErrorsLoop, h]

/-- Unfolding equation: a non-final attempt fails, so the executor sleeps
`D * 2 ^ attempt` and retries. -/
theorem loop_step {op : Nat → Except ε α} {a : Nat} {e : ε} (D : ℚ) (fb : Option α)
    (r : Nat) (h : op a = .error e) :
    handleErrorsLoop op D fb (r + 2) a =
      ⟨(handleErrorsLoop op D fb (r + 1) (a + 1)).result,
       D * 2 ^ a :: (handleErrorsLoop op D fb (r + 1) (a + 1)).sleeps,
       (handleErrorsLoop op D fb (r + 1) (a + 1)).calls + 1⟩ := by
  rw [handleErrorsLoop, h]

/-- The loop makes at most `remaining` calls. -/
theorem loop_calls_le (op : Nat → Except ε α) (D : ℚ) (fb : Option α) :
    ∀ (r a : Nat), (handleErrorsLoop op D fb r a).calls ≤ r
  | 0, _ => le_refl _
  | r + 1, a => by
    cases hop : op a with
    | ok v =>
      rw [loop_ok D fb r hop]
      exact Nat.succ_le_succ (Nat.zero_le r)
    | error e =>
      cases r with
      | zero =>
        cases fb with
        | some v => rw [loop_last_some D v hop]
        | none => rw [loop_last_none D hop]
      | succ r' =>
        rw [loop_step D fb r' hop]
        exact Nat.succ_le_succ (loop_calls_le op D fb (r' + 1) (a + 1))

/-- With at least one attempt available, the loop calls the operation at
least once. -/
theorem loop_calls_pos (op : Nat → Except ε α) (D : ℚ) (fb : Option α) :
    ∀ (r a : Nat), 1 ≤ r → 1 ≤ (handleErrorsLoop op D fb r a).calls
  | 0, _, h => absurd h (by norm_num)
  | r + 1, a, _ => by
    cases hop : op a with
    | ok v => rw [loop_ok D fb r hop]
    | error e =>
      cases r with
      | zero =>
        cases fb with
        | some v => rw [loop_last_some D v hop]
        | none => rw [loop_last_none D hop]
      | succ r' =>
        rw [loop_step D fb r' hop]
        exact Nat.succ_le_succ (Nat.zero_le _)

/-- The sleeps performed by the loop started at attempt `a` are the
exponential back-offs `D * 2 ^ (a + i)`, one for each call that failed
and was not the last. -/
theorem loop_sleeps (op : Nat → Except ε α) (D : ℚ) (fb : Option α) :
    ∀ (r a : Nat),
      (handleErrorsLoop op D fb r a).sleeps
        = (List.range ((handleErrorsLoop op D fb r a).calls - 1)).map
            (fun i => D * 2 ^ (a + i))
  | 0, a => by rw [loop_zero]; rfl
  | r + 1, a => by
    cases hop : op a with
    | ok v => rw [loop_ok D fb r hop]; rfl
    | error e =>
      cases r with
      | zero =>
        cases fb with
        | some v => rw [loop_last_some D v hop]; rfl
        | none => rw [loop_last_none D hop]; rfl
      | succ r' =>
        rw [loop_step D fb r' hop]
        have ih := loop_sleeps op D fb (r' + 1) (a + 1)
        have hpos := loop_calls_pos op D fb (r' + 1) (a + 1) (by norm_num)
        obtain ⟨m, hm⟩ : ∃ m, (handleErrorsLoop op D fb (r' + 1) (a + 1)).calls = m + 1 :=
          ⟨_, (Nat.succ_pred_eq_of_pos hpos).symm⟩
        show D * 2 ^ a :: (handleErrorsLoop op D fb (r' + 1) (a + 1)).sleeps
          = (List.range ((handleErrorsLoop op D fb (r' + 1) (a + 1)).calls + 1 - 1)).map
              (fun i => D * 2 ^ (a + i))
        rw [ih, hm]
        simp only [Nat.add_sub_cancel, List.range_succ_eq_map, List.map_cons, List.map_map]
        refine List.cons_eq_cons.mpr ⟨?_, ?_⟩
        · norm_num
        · apply List.map_congr_left
          intro i _
          simp only [Function.comp_apply]
          rw [show a + 1 + i = a + Nat.succ i from by omega]

/-- If the first `k` attempts fail and 0-based attempt `k < r` succeeds
with `v`, the loop result is success with `v` at that attempt. -/
theorem loop_success (op : Nat → Except ε α) (D : ℚ) (fb : Option α) :
    ∀ (r a k : Nat) (v : α), k < r →
      (∀ i, i < k → ∃ e, op (a + i) = .error e) →
      op (a + k) = .ok v →
      (handleErrorsLoop op D fb r a).result = .success v (a + k)
  | 0, _, k, _, hk, _, _ => absurd hk (Nat.not_lt_zero k)
  | r + 1, a, 0, v, _, _, hok => by
    rw [Nat.add_zero] at hok
    rw [loop_ok D fb r hok, Nat.add_zero]
  | r + 1, a, k + 1, v, hk, herr, hok => by
    obtain ⟨e0, he0⟩ := herr 0 (Nat.succ_pos k)
    rw [Nat.add_zero] at he0
    cases r with
    | zero => omega
    | succ r' =>
      rw [loop_step D fb r' he0]
      have herr' : ∀ i, i < k → ∃ e, op (a + 1 + i) = .error e := fun i hi => by
        obtain ⟨e, he⟩ := herr (i + 1) (by omega)
        exact ⟨e, by rw [show a + 1 + i = a + (i + 1) by omega]; exact he⟩
      have hok' : op (a + 1 + k) = .ok v := by
        rw [show a + 1 + k = a + (k + 1) by omega]; exact hok
      have hres := loop_success op D fb (r' + 1) (a + 1) k v (by omega) herr' hok'
      show (handleErrorsLoop op D fb (r' + 1) (a + 1)).result = .success v (a + (k + 1))
      rw [show a + (k + 1) = a + 1 + k by omega]
      exact hres

/-- If every available attempt fails, the loop returns the fallback when
one is supplied, and re-raises the final attempt's error when the
fallback is `none`. -/
theorem loop_exhaust (op : Nat → Except ε α) (D : ℚ) (fb : Option α) :
    ∀ (r a : Nat), 1 ≤ r →
      (∀ i, i < r → ∃ e, op (a + i) = .error e) →
      (∀ v, fb = some v → (handleErrorsLoop op D fb r a).result = .fellback v)
      ∧ (fb = none → ∀ e, op (a + (r - 1)) = .error e →
          (handleErrorsLoop op D fb r a).result = .raised e)
  | 0, _, hr, _ => absurd hr (by norm_num)
  | 1, a, _, herr => by
    obtain ⟨e0, he0⟩ := herr 0 (by norm_num)
    rw [Nat.add_zero] at he0
    constructor
    · intro v hfb
      subst hfb
      rw [loop_last_some D v he0]
    · intro hfb e he
      subst hfb
      rw [Nat.sub_self, Nat.add_zero, he0] at he
      injection he with he
      subst he
      rw [loop_last_none D he0]
  | r + 2, a, _, herr => by
    obtain ⟨e0, he0⟩ := herr 0 (by omega)
    rw [Nat.add_zero] at he0
    have ih := loop_exhaust op D fb (r + 1) (a + 1) (by omega)
      (fun i hi => by
        obtain ⟨e, he⟩ := herr (i + 1) (by omega)
        exact ⟨e, by rw [show a + 1 + i = a + (i + 1) by omega]; exact he⟩)
    constructor
    · intro v hfb
      rw [loop_step D fb r he0]
      exact ih.1 v hfb
    · intro hfb e he
      rw [loop_step D fb r he0]
      refine ih.2 hfb e ?_
      rw [show a + 1 + (r + 1 - 1) = a + (r + 2 - 1) by omega]
      exact he

/-- The full contract of the retry executor for `N ≥ 1` attempts: at most
`N` invocations; the sleeps are exactly `D * 2 ^ i` for the 0-based
attempts `i` that failed and were not the last (`D * 2 ^ (attempt - 1)`
in 1-based numbering); the first success is returned immediately; on
exhaustion a supplied fallback is returned, and with no fallback the
final attempt's error propagates. -/
def RetrySpec (N : Nat) (D : ℚ) (fb : Option α) (op : Nat → Except ε α) : Prop :=
  (handle_errors N D fb op).calls ≤ N
  ∧ (handle_errors N D fb op).sleeps
      = (List.range ((handle_errors N D fb op).calls - 1)).map (fun i => D * 2 ^ i)
  ∧ (∀ k v, k < N → (∀ i, i < k → ∃ e, op i = .error e) → op k = .ok v →
      (handle_errors N D fb op).result = .success v k)
  ∧ ((∀ i, i < N → ∃ e, op i = .error e) →
      (∀ v, fb = some v → (handle_errors N D fb op).result = .fellback v)
      ∧ (fb = none → ∀ e, op (N - 1) = .error e →
          (handle_errors N D fb op).result = .raised e))

/-- Claim C1: the retry executor with `N ≥ 1` attempts, base delay `D`
and optional fallback satisfies its full contract `RetrySpec`: at most
`N` invocations, back-off `D * 2 ^ (attempt - 1)` after each failed
non-final attempt, immediate return of the first success, the fallback
returned when supplied and all attempts fail, and the final error
propagated otherwise. -/
theorem handle_errors_spec (N : Nat) (D : ℚ) (fb : Option α)
    (op : Nat → Except ε α) (hN : 1 ≤ N) : RetrySpec N D fb op := by
  refine ⟨loop_calls_le op D fb N 0, ?_, ?_, ?_⟩
  · have h := loop_sleeps op D fb N 0
    simpa [handle_errors] using h
  · intro k v hk herr hok
    have h := loop_success op D fb N 0 k v hk
      (fun i hi => by simpa using herr i hi) (by simpa using hok)
    simpa [handle_errors] using h
  · intro herr
    have h := loop_exhaust op D fb N 0 hN (fun i hi => by simpa using herr i hi)
    constructor
    · exact h.1
    · intro hfb e he
      exact h.2 hfb e (by simpa using he)

/-- The concrete operation for the C1 witness: it fails on the first
attempt and succeeds with 7 on the second. -/
def opC1 : Nat → Except String Nat :=
  fun i => if i = 0 then .error "boom" else .ok 7

/-- Claim C1 witness: the contract instantiated at `N = 2`, `D = 1`, no
fallback, for `opC1`. -/
theorem handle_errors_spec_witness : 1 ≤ 2 ∧ RetrySpec 2 1 (none : Option Nat) opC1 :=
  ⟨by norm_num, handle_errors_spec 2 1 none opC1 (by norm_num)⟩

-- =========================================================================
-- Claim C10 : fallback None is no fallback
-- =========================================================================

/-- With `fallback = none` the loop never produces a fallback result. -/
theorem loop_never_fellback (op : Nat → Except ε α) (D : ℚ) :
    ∀ (r a : Nat) (v : α),
      (handleErrorsLoop op D none r a).result ≠ .fellback v
  | 0, a, v => by rw [loop_zero]; simp
  | r + 1, a, v => by
    cases hop : op a with
    | ok w => rw [loop_ok D none r hop]; simp
    | error e =>
      cases r with
      | zero => rw [loop_last_none D hop]; simp
      | succ r' =>
        rw [loop_step D none r' hop]
        exact loop_never_fellback op D (r' + 1) (a + 1) v

/-- Claim C10: supplying the explicit fallback value `None` (modelled by
`Option.none`, which is also what the Python parameter defaults to, so
the explicit and the omitted argument are literally the same value)
provides no fallback: no run can end in a fallback result, and when all
`N ≥ 1` attempts fail the final attempt's exception propagates — in
particular the `_load_visual` decorator's `fallback=None` with
`retry_count=2` provides no fallback at the decorator level. -/
theorem handle_errors_none_no_fallback (N : Nat) (D : ℚ) (op : Nat → Except ε α) :
    (∀ v, (handle_errors N D none op).result ≠ .fellback v)
    ∧ (1 ≤ N → (∀ i, i < N → ∃ e, op i = .error e) →
        ∀ e, op (N - 1) = .error e → (handle_errors N D none op).result = .raised e) := by
  constructor
  · exact fun v => loop_never_fellback op D N 0 v
  · intro hN herr e he
    exact (loop_exhaust op D none N 0 hN
      (fun i hi => by simpa using herr i hi)).2 rfl e (by simpa using he)

/-- The concrete operation for the C10 witness: every attempt fails. -/
def opC10 : Nat → Except String Nat := fun _ => .error "x"

/-- Claim C10 witness: with two attempts (the `_load_visual`
configuration) and fallback `none` over an always-failing operation, no
fallback result is possible and the final error propagates. -/
theorem handle_errors_none_no_fallback_witness :
    (∀ v, (handle_errors 2 1 none opC10).result ≠ .fellback v)
    ∧ (handle_errors 2 1 none opC10).result = .raised "x" :=
  ⟨(handle_errors_none_no_fallback 2 1 opC10).1,
   (handle_errors_none_no_fallback 2 1 opC10).2 (by norm_num)
     (fun i _ => ⟨"x", rfl⟩) "x" rfl⟩

-- =========================================================================
-- Claim C3 : assembler duration invariant
-- =========================================================================

/-- Every produced slot clip has exactly the target duration: a loaded
video is looped past the target and trimmed back to it, an image is
given the target directly, and a failed load is replaced by a
placeholder of the target duration. -/
theorem load_visual_getD_duration (fileExists : String → Bool) (loadFails : Visual → Bool)
    (rawDuration : Visual → ℚ) (v : Visual) (t : ℚ) :
    ((load_visual fileExists loadFails rawDuration v t).getD ⟨t⟩).duration = t := by
  simp only [load_visual]
  cases v.local_path with
  | none => rfl
  | some p =>
    by_cases hfe : fileExists p
    · simp only [hfe, Bool.not_true, Bool.false_eq_true, if_neg, not_false_iff]
      by_cases hlf : loadFails v
      · simp [hlf]
      · simp only [hlf, if_neg, Bool.false_eq_true, not_false_iff]
        by_cases hty : v.type = "video"
        · simp only [hty, if_pos]
          by_cases hlt : rawDuration v < t
          · simp only [hlt, if_pos]
            by_cases hz : rawDuration v ≤ 0
            · simp [hz]
            · rw [if_neg hz]
              push_neg at hz
              have hfl : pyInt (t / rawDuration v) = ⌊t / rawDuration v⌋ := by
                have hnn : (0 : ℚ) ≤ t / rawDuration v :=
                  div_nonneg (le_of_lt (lt_trans hz hlt)) (le_of_lt hz)
                simp [pyInt, not_lt.mpr hnn]
              have hge : t ≤ rawDuration v * (((pyInt (t / rawDuration v) + 1 : ℤ) : ℚ)) := by
                rw [hfl]
                push_cast
                have h1 : t / rawDuration v < (⌊t / rawDuration v⌋ : ℚ) + 1 :=
                  Int.lt_floor_add_one _
                calc t = rawDuration v * (t / rawDuration v) := by
                      field_simp
                  _ ≤ rawDuration v * ((⌊t / rawDuration v⌋ : ℚ) + 1) :=
                      mul_le_mul_of_nonneg_left (le_of_lt h1) (le_of_lt hz)
              simp only [Option.getD_some]
              exact min_eq_right hge
          · simp only [hlt, if_neg, not_false_iff, Option.getD_some]
            exact min_eq_right (le_of_not_lt hlt)
        · simp [hty]
    · simp [hfe]

/-- With a nonempty visual list, `assemble` succeeds and its result is
the per-visual slot list at `segment_duration = T / len(visuals)`. -/
theorem assemble_pos_result (fileExists : String → Bool) (loadFails : Visual → Bool)
    (rawDuration : Visual → ℚ) (T : ℚ) (visuals : List Visual)
    (h : ¬ visuals.length = 0) :
    (assemble fileExists loadFails rawDuration T visuals).result
      = .ok ((visuals.map (fun v =>
            load_visual fileExists loadFails rawDuration v (T / (visuals.length : ℚ)))).map
          (fun o => o.getD ⟨T / (visuals.length : ℚ)⟩)) := by
  simp only [assemble]
  rw [if_neg h]

/-- Claim C3: with at least one visual and narration duration `T`, the
assembler produces exactly one slot per visual, every slot (loaded or
placeholder) has duration `segment_duration = T / visual_count`, and the
slot durations sum to `T` exactly. -/
theorem assemble_slots_spec (fileExists : String → Bool) (loadFails : Visual → Bool)
    (rawDuration : Visual → ℚ) (T : ℚ) (visuals : List Visual)
    (h : 0 < visuals.length) :
    ∃ slots,
      (assemble fileExists loadFails rawDuration T visuals).result = .ok slots
      ∧ slots.length = visuals.length
      ∧ (∀ c ∈ slots, c.duration = T / (visuals.length : ℚ))
      ∧ (slots.map Clip.duration).sum = T := by
  have hne : ¬ visuals.length = 0 := Nat.pos_iff_ne_zero.mp h
  refine ⟨_, assemble_pos_result fileExists loadFails rawDuration T visuals hne, ?_, ?_, ?_⟩
  · simp
  · intro c hc
    simp only [List.map_map, List.mem_map, Function.comp_apply] at hc
    obtain ⟨v, _, hv⟩ := hc
    rw [← hv, load_visual_getD_duration]
  · have hmap : (((visuals.map (fun v =>
        load_visual fileExists loadFails rawDuration v (T / (visuals.length : ℚ)))).map
          (fun o => o.getD ⟨T / (visuals.length : ℚ)⟩)).map Clip.duration)
        = List.replicate visuals.length (T / (visuals.length : ℚ)) := by
      refine List.eq_replicate_iff.mpr ⟨by simp, ?_⟩
      intro b hb
      simp only [List.map_map, List.mem_map, Function.comp_apply] at hb
      obtain ⟨v, _, hv⟩ := hb
      rw [← hv, load_visual_getD_duration]
    rw [hmap, List.sum_replicate, nsmul_eq_mul]
    have hn0 : (visuals.length : ℚ) ≠ 0 := by exact_mod_cast hne
    field_simp

/-- Claim C3 witness: one image visual with no local path (so its load
fails and a placeholder is substituted) and narration of 6 seconds. -/
theorem assemble_slots_spec_witness :
    0 < ([({ id := "v1", type := "image", source := "pexels", url := "",
             download_url := "" } : Visual)] : List Visual).length
    ∧ ∃ slots,
        (assemble (fun _ => false) (fun _ => false) (fun _ => 0) 6
          [{ id := "v1", type := "image", source := "pexels", url := "",
             download_url := "" }]).result = .ok slots
        ∧ slots.length = 1
        ∧ (∀ c ∈ slots, c.duration = 6 / ((1 : Nat) : ℚ))
        ∧ (slots.map Clip.duration).sum = 6 :=
  ⟨by norm_num,
   assemble_slots_spec (fun _ => false) (fun _ => false) (fun _ => 0) 6
     [{ id := "v1", type := "image", source := "pexels", url := "",
        download_url := "" }] (by norm_num)⟩

-- =========================================================================
-- Claim C6 : zero visuals
-- =========================================================================

/-- Claim C6: invoking the assembler with zero visuals logs the
non-recoverable `no_visuals` error, finalizes the metrics with
`success=False` (the terminal failed state), raises
`ValueError("No visuals to assemble")` to the caller, and never reaches
the render step — so no output video file is written. -/
theorem assemble_zero_visuals_fails (fileExists : String → Bool) (loadFails : Visual → Bool)
    (rawDuration : Visual → ℚ) (T : ℚ) :
    (assemble fileExists loadFails rawDuration T []).result = .error "No visuals to assemble"
    ∧ ("no_visuals", false) ∈ (assemble fileExists loadFails rawDuration T []).errors
    ∧ (assemble fileExists loadFails rawDuration T []).finalized_success = false
    ∧ (assemble fileExists loadFails rawDuration T []).rendered = false := by
  refine ⟨rfl, ?_, rfl, rfl⟩
  simp [assemble]

-- =========================================================================
-- chunking toolkit : pySplit / joinSp lemmas
-- =========================================================================

/-- A word as produced by `pySplit`: nonempty and whitespace-free. -/
def ValidWord (w : List Char) : Prop :=
  w ≠ [] ∧ ∀ c ∈ w, c.isWhitespace = false

instance : DecidablePred ValidWord := fun w =>
  inferInstanceAs (Decidable (w ≠ [] ∧ ∀ c ∈ w, c.isWhitespace = false))

/-- Unfolding equation of `joinSp` on a cons with nonempty tail. -/
theorem joinSp_cons (w : List Char) (ws : List (List Char)) (h : ws ≠ []) :
    joinSp (w :: ws) = w ++ ' ' :: joinSp ws := by
  cases ws with
  | nil => exact absurd rfl h
  | cons w' ws' => rfl

/-- The length of `(String.mk l)` is the length of `l`. -/
theorem length_string_mk (l : List Char) : (String.mk l).length = l.length := rfl

/-- The splitter consumes a whitespace-free run by pushing it (reversed)
onto the accumulator. -/
theorem pySplitAux_word :
    ∀ (w : List Char), (∀ c ∈ w, c.isWhitespace = false) →
      ∀ (rest acc : List Char),
        pySplitAux (w ++ rest) acc = pySplitAux rest (w.reverse ++ acc)
  | [], _, rest, acc => by simp
  | c :: w', hw, rest, acc => by
    have hc : c.isWhitespace = false := hw c (List.mem_cons_self c w')
    have hw' : ∀ x ∈ w', x.isWhitespace = false := fun x hx => hw x (List.mem_cons_of_mem c hx)
    show pySplitAux (c :: (w' ++ rest)) acc = pySplitAux rest ((c :: w').reverse ++ acc)
    rw [pySplitAux, hc]
    simp only [Bool.false_eq_true, if_neg, not_false_iff, List.reverse_cons, List.append_assoc,
      List.singleton_append]
    exact pySplitAux_word w' hw' rest (c :: acc)

/-- Splitting across an explicit space boundary splits independently on
both sides. -/
theorem pySplitAux_append_space :
    ∀ (a b acc : List Char),
      pySplitAux (a ++ ' ' :: b) acc = pySplitAux a acc ++ pySplitAux b []
  | [], b, acc => by
    show pySplitAux (' ' :: b) acc = pySplitAux [] acc ++ pySplitAux b []
    rw [pySplitAux, pySplitAux]
    have hws : ' '.isWhitespace = true := by decide
    rw [hws]
    simp only [if_true]
    cases hacc : acc.isEmpty
    · simp
    · simp
  | c :: a', b, acc => by
    show pySplitAux (c :: (a' ++ ' ' :: b)) acc = pySplitAux (c :: a') acc ++ pySplitAux b []
    rw [pySplitAux]
    conv_rhs => rw [pySplitAux]
    cases hc : c.isWhitespace
    · simp only [Bool.false_eq_true, if_neg, not_false_iff]
      exact pySplitAux_append_space a' b (c :: acc)
    · simp only [if_true]
      cases hacc : acc.isEmpty
      · simp only [Bool.false_eq_true, if_neg, not_false_iff]
        rw [pySplitAux_append_space a' b [], List.cons_append]
      · simp only [if_true]
        rw [pySplitAux_append_space a' b []]

/-- A single valid word splits to itself. -/
theorem pySplit_word (w : List Char) (hw : ValidWord w) : pySplit w = [w] := by
  obtain ⟨hne, hchars⟩ := hw
  have h := pySplitAux_word w hchars [] []
  rw [List.append_nil] at h
  rw [pySplit, h, pySplitAux, List.append_nil]
  have : w.reverse.isEmpty = false := by
    simp [List.isEmpty_eq_false, hne]
  rw [this]
  simp

/-- Splitting the space-joined form of a list of valid words recovers
exactly that list. -/
theorem pySplit_joinSp :
    ∀ (ws : List (List Char)), (∀ w ∈ ws, ValidWord w) →
      pySplit (joinSp ws) = ws
  | [], _ => rfl
  | [w], hws => pySplit_word w (hws w (List.mem_singleton.mpr rfl))
  | w :: w' :: rest, hws => by
    have hne : (w' :: rest) ≠ ([] : List (List Char)) := by simp
    rw [joinSp_cons w (w' :: rest) hne, pySplit, pySplitAux_append_space]
    have h1 : pySplitAux w [] = [w] :=
      pySplit_word w (hws w (List.mem_cons_self _ _))
    rw [h1]
    have h2 := pySplit_joinSp (w' :: rest) (fun x hx => hws x (List.mem_cons_of_mem w hx))
    rw [pySplit] at h2
    rw [h2]
    rfl

/-- Every word produced by the splitter is valid, provided the running
accumulator holds only non-whitespace characters. -/
theorem pySplitAux_valid :
    ∀ (l acc : List Char), (∀ c ∈ acc, c.isWhitespace = false) →
      ∀ w ∈ pySplitAux l acc, ValidWord w
  | [], acc, hacc, w, hw => by
    rw [pySplitAux] at hw
    cases hacc' : acc.isEmpty
    · rw [hacc'] at hw
      simp only [Bool.false_eq_true, if_neg, not_false_iff, List.mem_singleton] at hw
      subst hw
      constructor
      · simp [List.isEmpty_eq_false.mp hacc']
      · intro c hc
        exact hacc c (List.mem_reverse.mp hc)
    · rw [hacc'] at hw
      simp at hw
  | c :: rest, acc, hacc, w, hw => by
    rw [pySplitAux] at hw
    cases hc : c.isWhitespace
    · rw [hc] at hw
      simp only [Bool.false_eq_true, if_neg, not_false_iff] at hw
      have hacc' : ∀ x ∈ (c :: acc), x.isWhitespace = false := by
        intro x hx
        rcases List.mem_cons.mp hx with h | h
        · subst h; exact hc
        · exact hacc x h
      exact pySplitAux_valid rest (c :: acc) hacc' w hw
    · rw [hc] at hw
      simp only [if_true] at hw
      cases hacc' : acc.isEmpty
      · rw [hacc'] at hw
        simp only [Bool.false_eq_true, if_neg, not_false_iff, List.mem_cons] at hw
        rcases hw with h | h
        · subst h
          constructor
          · simp [List.isEmpty_eq_false.mp hacc']
          · intro x hx
            exact hacc x (List.mem_reverse.mp hx)
        · exact pySplitAux_valid rest [] (by simp) w h
      · rw [hacc'] at hw
        exact pySplitAux_valid rest [] (by simp) w hw

/-- All words of `pySplit l` are valid. -/
theorem pySplit_valid (l : List Char) : ∀ w ∈ pySplit l, ValidWord w :=
  pySplitAux_valid l [] (by simp)

/-- The chunker never returns an empty chunk list when a chunk is in
progress. -/
theorem chunkAux_ne_nil (m : Nat) :
    ∀ (words current : List (List Char)) (clen : Nat), current ≠ [] →
      chunkAux m words current clen ≠ []
  | [], current, clen, h => by
    rw [chunkAux]
    have : current.isEmpty = false := List.isEmpty_eq_false.mpr h
    rw [this]
    simp
  | w :: rest, current, clen, h => by
    rw [chunkAux]
    by_cases hguard : clen + w.length + 1 > m
    · rw [if_pos hguard]
      simp
    · rw [if_neg hguard]
      exact chunkAux_ne_nil m rest (current ++ [w]) (clen + w.length + 1) (by simp)

/-- Splitting the space-joined chunks recovers the pending words plus the
remaining words: the chunker permutes no word and loses no word. -/
theorem pySplit_joinSp_chunkAux (m : Nat) :
    ∀ (words current : List (List Char)) (clen : Nat),
      (∀ w ∈ words, ValidWord w) → (∀ w ∈ current, ValidWord w) →
      pySplit (joinSp (chunkAux m words current clen)) = current ++ words
  | [], current, clen, _, hcur => by
    rw [chunkAux]
    cases hc : current.isEmpty
    · simp only [Bool.false_eq_true, if_neg, not_false_iff]
      rw [show joinSp [joinSp current] = joinSp current from rfl]
      rw [pySplit_joinSp current hcur, List.append_nil]
    · have : current = [] := List.isEmpty_iff.mp hc
      subst this
      simp only [if_true]
      rfl
  | w :: rest, current, clen, hwords, hcur => by
    have hw : ValidWord w := hwords w (List.mem_cons_self _ _)
    have hrest : ∀ x ∈ rest, ValidWord x := fun x hx => hwords x (List.mem_cons_of_mem w hx)
    rw [chunkAux]
    by_cases hguard : clen + w.length + 1 > m
    · rw [if_pos hguard]
      have hR : chunkAux m rest [w] w.length ≠ [] :=
        chunkAux_ne_nil m rest [w] w.length (by simp)
      rw [joinSp_cons _ _ hR, pySplit, pySplitAux_append_space]
      have h1 : pySplitAux (joinSp current) [] = current := pySplit_joinSp current hcur
      have h2 : pySplitAux (joinSp (chunkAux m rest [w] w.length)) [] = [w] ++ rest := by
        have := pySplit_joinSp_chunkAux m rest [w] w.length hrest
          (fun x hx => by rw [List.mem_singleton.mp hx]; exact hw)
        rw [pySplit] at this
        exact this
      rw [h1, h2]
      rfl
    · rw [if_neg hguard]
      have hcur' : ∀ x ∈ current ++ [w], ValidWord x := by
        intro x hx
        rcases List.mem_append.mp hx with h | h
        · exact hcur x h
        · rw [List.mem_singleton.mp h]; exact hw
      rw [pySplit_joinSp_chunkAux m rest (current ++ [w]) (clen + w.length + 1) hrest hcur']
      simp

-- =========================================================================
-- Claim C7 : chunking round trip
-- =========================================================================

/-- Claim C7: chunking never splits inside a word — joining all chunks of
`chunk_text` with single spaces and collapsing whitespace reproduces the
cleaned input text (a text is "cleaned" exactly when it is a fixed point
of whitespace collapsing, which is what the narration cleaner's
`re.sub(r'\s+', ' ', ...).strip()` produces). -/
theorem chunk_text_roundtrip (text : String) (max_chars : Nat)
    (hclean : collapse_ws text = text) :
    collapse_ws (join_with_spaces (chunk_text text max_chars)) = text := by
  have hwords : ∀ w ∈ pySplit text.toList, ValidWord w := pySplit_valid text.toList
  have hkey : pySplit (joinSp (chunkAux max_chars (pySplit text.toList) [] 0))
      = pySplit text.toList := by
    rw [pySplit_joinSp_chunkAux max_chars (pySplit text.toList) [] 0 hwords (by simp)]
    rfl
  have hlist : (join_with_spaces (chunk_text text max_chars)).toList
      = joinSp (chunkAux max_chars (pySplit text.toList) [] 0) := by
    simp only [join_with_spaces, chunk_text, List.map_map]
    rw [show (String.toList ∘ String.mk) = (id : List Char → List Char) from rfl, List.map_id]
    rfl
  rw [collapse_ws, hlist, hkey]
  rw [collapse_ws] at hclean
  exact hclean

/-- Claim C7 witness: the already-clean text "ab cd" chunked at budget 3
round-trips. -/
theorem chunk_text_roundtrip_witness :
    collapse_ws "ab cd" = "ab cd"
    ∧ collapse_ws (join_with_spaces (chunk_text "ab cd" 3)) = "ab cd" :=
  ⟨by decide, chunk_text_roundtrip "ab cd" 3 (by decide)⟩

-- =========================================================================
-- Claim C8 : chunk length bound
-- =========================================================================

/-- Joining one more word adds its length plus at most one separator. -/
theorem joinSp_append_singleton_ne (current : List (List Char)) (w : List Char)
    (h : current ≠ []) :
    joinSp (current ++ [w]) = joinSp current ++ ' ' :: w := by
  induction current with
  | nil => exact absurd rfl h
  | cons x cs ih =>
    cases cs with
    | nil => rfl
    | cons y cs' =>
      have hne : (y :: cs') ≠ ([] : List (List Char)) := by simp
      have hne2 : (y :: cs') ++ [w] ≠ ([] : List (List Char)) := by simp
      rw [List.cons_append, joinSp_cons x _ hne2, joinSp_cons x _ hne, ih (by simp)]
      simp

/-- The chunker's loop invariant: if the running length bounds the joined
length of the chunk in progress and stays within the budget, and every
remaining word fits the budget, every emitted chunk fits the budget. -/
theorem chunkAux_length_le (m : Nat) :
    ∀ (words current : List (List Char)) (clen : Nat),
      (∀ w ∈ words, w.length ≤ m) →
      (joinSp current).length ≤ clen → clen ≤ m →
      ∀ chunk ∈ chunkAux m words current clen, chunk.length ≤ m
  | [], current, clen, _, hlen, hm, chunk, hchunk => by
    rw [chunkAux] at hchunk
    cases hc : current.isEmpty
    · rw [hc] at hchunk
      simp only [Bool.false_eq_true, if_neg, not_false_iff, List.mem_singleton] at hchunk
      subst hchunk
      omega
    · rw [hc] at hchunk
      simp at hchunk
  | w :: rest, current, clen, hwords, hlen, hm, chunk, hchunk => by
    have hwle : w.length ≤ m := hwords w (List.mem_cons_self _ _)
    have hrest : ∀ x ∈ rest, x.length ≤ m := fun x hx => hwords x (List.mem_cons_of_mem w hx)
    rw [chunkAux] at hchunk
    by_cases hguard : clen + w.length + 1 > m
    · rw [if_pos hguard] at hchunk
      rcases List.mem_cons.mp hchunk with h | h
      · subst h
        omega
      · exact chunkAux_length_le m rest [w] w.length hrest (le_refl _) hwle chunk h
    · rw [if_neg hguard] at hchunk
      have hlen' : (joinSp (current ++ [w])).length ≤ clen + w.length + 1 := by
        cases hcur : current.isEmpty
        · rw [joinSp_append_singleton_ne current w (List.isEmpty_eq_false.mp hcur)]
          simp only [List.length_append, List.length_cons]
          omega
        · have : current = [] := List.isEmpty_iff.mp hcur
          subst this
          simp only [List.nil_append]
          have : (joinSp [w]).length = w.length := rfl
          omega
      exact chunkAux_length_le m rest (current ++ [w]) (clen + w.length + 1)
        hrest hlen' (by omega) chunk hchunk

/-- Claim C8 amended: every chunk returned by `chunk_text` has length at
most `max_chars`, provided no single word of the input exceeds
`max_chars` (a single over-long word is emitted as its own over-long
chunk, see the counterexample). -/
theorem chunk_text_length_le (text : String) (max_chars : Nat)
    (hw : ∀ w ∈ pySplit text.toList, w.length ≤ max_chars) :
    ∀ chunk ∈ chunk_text text max_chars, chunk.length ≤ max_chars := by
  intro chunk hchunk
  simp only [chunk_text, List.mem_map] at hchunk
  obtain ⟨l, hl, hmk⟩ := hchunk
  rw [← hmk, length_string_mk]
  exact chunkAux_length_le max_chars (pySplit text.toList) [] 0 hw (Nat.le_refl 0)
    (Nat.zero_le _) l hl

/-- Claim C8 counterexample: the word "aaaa" does not fit the budget 3,
and `chunk_text` emits it as a chunk of length 4 > 3 (after an empty
first chunk), violating the unconditional bound the claim states. -/
theorem chunk_text_overlong_chunk :
    chunk_text "aaaa" 3 = ["", "aaaa"]
    ∧ ∃ chunk ∈ chunk_text "aaaa" 3, 3 < chunk.length := by
  decide

/-- Claim C8 witness: on "ab cd" with budget 3 every word fits and every
chunk fits. -/
theorem chunk_text_length_le_witness :
    (∀ w ∈ pySplit "ab cd".toList, w.length ≤ 3)
    ∧ ∀ chunk ∈ chunk_text "ab cd" 3, chunk.length ≤ 3 :=
  ⟨by decide, chunk_text_length_le "ab cd" 3 (by decide)⟩

-- =========================================================================
-- containment toolkit (for the C5 scenario witness)
-- =========================================================================

/-- The empty needle is contained in every haystack (Python `"" in s`). -/
theorem listContains_nil_needle : ∀ (b : List Char), listContains [] b = true
  | [] => rfl
  | _ :: _ => by rw [listContains]; simp [List.isPrefixOf]

/-- A prefix of `s` is a prefix of `s ++ b`. -/
theorem isPrefixOf_append_left :
    ∀ (n s b : List Char), n.isPrefixOf s = true → n.isPrefixOf (s ++ b) = true
  | [], _, _, _ => by simp [List.isPrefixOf]
  | x :: n', [], b, h => by simp [List.isPrefixOf] at h
  | x :: n', y :: s', b, h => by
    simp only [List.isPrefixOf, Bool.and_eq_true] at h
    simp only [List.cons_append, List.isPrefixOf, Bool.and_eq_true]
    exact ⟨h.1, isPrefixOf_append_left n' s' b h.2⟩

/-- A needle that is a prefix is contained. -/
theorem listContains_of_isPrefixOf (n b : List Char) (h : n.isPrefixOf b = true) :
    listContains n b = true := by
  cases b with
  | nil =>
    cases n with
    | nil => rfl
    | cons x n' => simp [List.isPrefixOf] at h
  | cons c t => rw [listContains, h, Bool.true_or]

/-- Containment in `a` gives containment in `a ++ b`. -/
theorem listContains_append_left :
    ∀ (a : List Char) (n b : List Char), listContains n a = true →
      listContains n (a ++ b) = true
  | [], n, b, h => by
    rw [listContains] at h
    have : n = [] := List.isEmpty_iff.mp h
    subst this
    exact listContains_nil_needle b
  | c :: a', n, b, h => by
    rw [listContains] at h
    rw [List.cons_append, listContains]
    rcases Bool.or_eq_true_iff.mp h with hpre | hrec
    · rw [show c :: (a' ++ b) = (c :: a') ++ b from rfl]
      rw [isPrefixOf_append_left n (c :: a') b hpre, Bool.true_or]
    · rw [listContains_append_left a' n b hrec, Bool.or_true]

/-- `isPrefixOf` inspects only the first `n.length` characters. -/
theorem isPrefixOf_take :
    ∀ (n l : List Char), n.isPrefixOf l = n.isPrefixOf (l.take n.length)
  | [], l => by simp [List.isPrefixOf]
  | x :: n', [] => rfl
  | x :: n', y :: l' => by
    simp only [List.length_cons, List.take_succ_cons, List.isPrefixOf]
    rw [isPrefixOf_take n' l']

/-- In a prefix test against `s ++ b`, only the first `n.length`
characters of `b` matter. -/
theorem isPrefixOf_append_take (n s b : List Char) :
    n.isPrefixOf (s ++ b) = n.isPrefixOf (s ++ b.take n.length) := by
  rw [isPrefixOf_take n (s ++ b), isPrefixOf_take n (s ++ b.take n.length)]
  congr 1
  rw [List.take_append_eq_append_take, List.take_append_eq_append_take, List.take_take]
  rw [Nat.min_eq_left (Nat.sub_le _ _)]

/-- Containment in `a ++ b` decomposes into a finite scan of the starts
inside `a` (looking only `n.length` characters into `b`) plus
containment in `b`. -/
theorem listContains_append_eval :
    ∀ (a n b : List Char),
      listContains n (a ++ b)
        = (a.tails.any (fun s => n.isPrefixOf (s ++ b.take n.length)) || listContains n b)
  | [], n, b => by
    show listContains n b
        = ((([[]] : List (List Char)).any fun s => n.isPrefixOf (s ++ b.take n.length))
            || listContains n b)
    rw [List.any_cons, List.any_nil, Bool.or_false, List.nil_append, ← isPrefixOf_take]
    cases hb : n.isPrefixOf b
    · simp
    · rw [listContains_of_isPrefixOf n b hb]
      simp
  | c :: a', n, b => by
    rw [List.cons_append, listContains,
      show List.tails (c :: a') = (c :: a') :: List.tails a' from rfl, List.any_cons]
    rw [show c :: (a' ++ b) = (c :: a') ++ b from rfl]
    rw [isPrefixOf_append_take n (c :: a') b]
    rw [listContains_append_eval a' n b]
    rw [Bool.or_assoc]

/-- Mismatching head characters refute a prefix test. -/
theorem isPrefixOf_cons_neq {a x : Char} {as l : List Char} (h : a ≠ x) :
    (a :: as).isPrefixOf (x :: l) = false := by
  simp [List.isPrefixOf, h]

/-- A needle whose first character is neither 'q' nor a space is not
contained in any run "q q ... q", nor in such a run preceded by a
space. -/
theorem listContains_pad_false (a : Char) (as : List Char)
    (hq : a ≠ 'q') (hs : a ≠ ' ') :
    ∀ m, listContains (a :: as) (joinSp (List.replicate m ['q'])) = false
      ∧ listContains (a :: as) (' ' :: joinSp (List.replicate m ['q'])) = false
  | 0 => by
    constructor
    · rfl
    · rw [show joinSp (List.replicate 0 ['q']) = [] from rfl, listContains,
        isPrefixOf_cons_neq hs]
      rfl
  | 1 => by
    have h1 : listContains (a :: as) ['q'] = false := by
      rw [show (['q'] : List Char) = 'q' :: [] from rfl, listContains,
        isPrefixOf_cons_neq hq]
      rfl
    constructor
    · exact h1
    · rw [listContains, isPrefixOf_cons_neq hs]
      simpa using h1
  | m + 2 => by
    have ih := listContains_pad_false a as hq hs (m + 1)
    have hexp : joinSp (List.replicate (m + 2) ['q'])
        = 'q' :: ' ' :: joinSp (List.replicate (m + 1) ['q']) := by
      rw [show List.replicate (m + 2) (['q'] : List Char)
            = ['q'] :: List.replicate (m + 1) ['q'] from rfl]
      rw [joinSp_cons _ _ (by simp [List.replicate_succ])]
      rfl
    have h1 : listContains (a :: as) ('q' :: ' ' :: joinSp (List.replicate (m + 1) ['q']))
        = false := by
      rw [listContains, isPrefixOf_cons_neq hq]
      simpa using ih.2
    constructor
    · rw [hexp]; exact h1
    · rw [hexp, listContains, isPrefixOf_cons_neq hs]
      simpa using h1

-- =========================================================================
-- the C5 scenario script
-- =========================================================================

/-- The leading words of the scenario script: six distinct positive
phrases written out word by word. -/
def scenarioPhraseWords : List String :=
  ["in", "my", "analysis", "what", "this", "means", "the", "implications",
   "looking", "at", "this", "my", "take", "on", "as", "we", "can", "see"]

/-- The scenario word list: the 18 phrase words followed by 2082 filler
words "q", for a total of 2100 words. -/
def scenarioWords : List (List Char) :=
  scenarioPhraseWords.map String.toList ++ List.replicate 2082 ['q']

/-- A 2100-word script containing exactly six distinct positive
phrases. -/
def scenarioScript : String := String.mk (joinSp scenarioWords)

/-- The character prefix of the scenario text up to and including the
space after the last phrase word. -/
def scenarioHead : List Char := joinSp (scenarioPhraseWords.map String.toList) ++ [' ']

/-- The filler tail of the scenario text. -/
def scenarioPad : List Char := joinSp (List.replicate 2082 (['q'] : List Char))

/-- The filler word list is nonempty. -/
theorem replicate_2082_ne_nil : List.replicate 2082 (['q'] : List Char) ≠ [] := by
  intro h
  have h2 : (List.replicate 2082 (['q'] : List Char)).length = 0 := by rw [h]; rfl
  rw [List.length_replicate] at h2
  exact absurd h2 (by norm_num)

/-- Joining a concatenation of two nonempty word lists joins each part
with a space between. -/
theorem joinSp_append :
    ∀ (ws1 ws2 : List (List Char)), ws1 ≠ [] → ws2 ≠ [] →
      joinSp (ws1 ++ ws2) = joinSp ws1 ++ ' ' :: joinSp ws2
  | [], _, h, _ => absurd rfl h
  | [w], ws2, _, h2 => by
    rw [List.singleton_append, joinSp_cons w ws2 h2]
    rfl
  | w :: w' :: ws1', ws2, _, h2 => by
    have hne : (w' :: ws1') ++ ws2 ≠ ([] : List (List Char)) := by simp
    rw [List.cons_append, joinSp_cons w _ hne,
      joinSp_append (w' :: ws1') ws2 (by simp) h2,
      joinSp_cons w (w' :: ws1') (by simp)]
    simp

/-- The scenario text splits as head plus filler. -/
theorem scenario_split : joinSp scenarioWords = scenarioHead ++ scenarioPad := by
  rw [scenarioWords, scenarioHead, scenarioPad,
    joinSp_append (scenarioPhraseWords.map String.toList) (List.replicate 2082 ['q'])
      (by decide) replicate_2082_ne_nil]
  rw [List.append_assoc, List.singleton_append]

/-- Mapping a space-preserving character function over a joined word list
maps it over each word. -/
theorem map_joinSp (f : Char → Char) (hf : f ' ' = ' ') :
    ∀ (ws : List (List Char)),
      List.map f (joinSp ws) = joinSp (ws.map (List.map f))
  | [] => rfl
  | [w] => rfl
  | w :: w' :: rest => by
    rw [joinSp_cons w (w' :: rest) (by simp), List.map_append, List.map_cons, hf,
      map_joinSp f hf (w' :: rest)]
    rw [show List.map (List.map f) (w :: w' :: rest)
          = List.map f w :: List.map f w' :: List.map (List.map f) rest from rfl]
    rw [joinSp_cons (List.map f w) _ (by simp)]
    rw [List.map_cons]

/-- `pyLower` acts on the character list. -/
theorem pyLower_mk (l : List Char) :
    pyLower (String.mk l) = String.mk (l.map Char.toLower) := rfl

/-- A joined word list whose words are lower-case fixed points is itself
a `pyLower` fixed point. -/
theorem pyLower_joinSp_fixed (ws : List (List Char))
    (hws : ws.map (List.map Char.toLower) = ws) :
    pyLower (String.mk (joinSp ws)) = String.mk (joinSp ws) := by
  rw [pyLower_mk, map_joinSp Char.toLower (by decide) ws, hws]

/-- The scenario script is already lower-case. -/
theorem scenario_lower : pyLower scenarioScript = scenarioScript := by
  refine pyLower_joinSp_fixed scenarioWords ?_
  rw [scenarioWords, List.map_append, List.map_replicate]
  have h1 : (scenarioPhraseWords.map String.toList).map (List.map Char.toLower)
      = scenarioPhraseWords.map String.toList := by decide
  have h2 : List.map Char.toLower ['q'] = (['q'] : List Char) := by decide
  rw [h1, h2]

/-- Every scenario word is valid. -/
theorem scenario_valid : ∀ w ∈ scenarioWords, ValidWord w := by
  intro w hw
  rcases List.mem_append.mp hw with h | h
  · have hall : ∀ x ∈ scenarioPhraseWords.map String.toList, ValidWord x := by decide
    exact hall w h
  · rw [List.eq_of_mem_replicate h]
    decide

/-- The scenario script has exactly 2100 words. -/
theorem scenario_wordcount : pyWordCount scenarioScript = 2100 := by
  show (pySplit (joinSp scenarioWords)).length = 2100
  rw [pySplit_joinSp scenarioWords scenario_valid, scenarioWords, List.length_append,
    List.length_map, List.length_replicate,
    show scenarioPhraseWords.length = 18 from rfl]

/-- Positive phrases: containment in the head gives containment in the
lower-cased scenario script. -/
theorem scenario_contains_pos (p : String)
    (hp : listContains p.toList (joinSp (scenarioPhraseWords.map String.toList)) = true) :
    strContains p (pyLower scenarioScript) = true := by
  rw [scenario_lower]
  show listContains p.toList (joinSp scenarioWords) = true
  rw [scenario_split, scenarioHead, List.append_assoc, List.singleton_append]
  exact listContains_append_left _ p.toList _ hp

/-- Negative phrases: a phrase starting with a character other than 'q'
and space that matches at no start position inside the head is not
contained in the lower-cased scenario script. -/
theorem scenario_contains_neg (p : String) (a : Char) (as : List Char)
    (hn : p.toList = a :: as) (hq : a ≠ 'q') (hs : a ≠ ' ')
    (hA : scenarioHead.tails.any
        (fun s => p.toList.isPrefixOf (s ++ scenarioPad.take p.toList.length)) = false) :
    strContains p (pyLower scenarioScript) = false := by
  rw [scenario_lower]
  show listContains p.toList (joinSp scenarioWords) = false
  rw [scenario_split, listContains_append_eval, hA, Bool.false_or, hn]
  exact (listContains_pad_false a as hq hs 2082).1

/-- Phrase 1 occurs in the scenario script. -/
theorem scenario_p1 : strContains "in my analysis" (pyLower scenarioScript) = true :=
  scenario_contains_pos _ (by decide)

/-- Phrase 2 occurs in the scenario script. -/
theorem scenario_p2 : strContains "what this means" (pyLower scenarioScript) = true :=
  scenario_contains_pos _ (by decide)

/-- Phrase 3 occurs in the scenario script. -/
theorem scenario_p3 : strContains "the implications" (pyLower scenarioScript) = true :=
  scenario_contains_pos _ (by decide)

/-- Phrase 4 occurs in the scenario script. -/
theorem scenario_p4 : strContains "looking at this" (pyLower scenarioScript) = true :=
  scenario_contains_pos _ (by decide)

/-- Phrase 5 occurs in the scenario script. -/
theorem scenario_p5 : strContains "my take on" (pyLower scenarioScript) = true :=
  scenario_contains_pos _ (by decide)

/-- Phrase 6 occurs in the scenario script. -/
theorem scenario_p6 : strContains "as we can see" (pyLower scenarioScript) = true :=
  scenario_contains_pos _ (by decide)

/-- Phrase 7 does not occur in the scenario script. -/
theorem scenario_p7 : strContains "this suggests" (pyLower scenarioScript) = false :=
  scenario_contains_neg _ 't' "his suggests".toList rfl (by decide) (by decide) (by decide)

/-- Phrase 8 does not occur in the scenario script. -/
theorem scenario_p8 : strContains "the data shows" (pyLower scenarioScript) = false :=
  scenario_contains_neg _ 't' "he data shows".toList rfl (by decide) (by decide) (by decide)

/-- Phrase 9 does not occur in the scenario script. -/
theorem scenario_p9 : strContains "according to" (pyLower scenarioScript) = false :=
  scenario_contains_neg _ 'a' "ccording to".toList rfl (by decide) (by decide) (by decide)

/-- Phrase 10 does not occur in the scenario script. -/
theorem scenario_p10 : strContains "experts believe" (pyLower scenarioScript) = false :=
  scenario_contains_neg _ 'e' "xperts believe".toList rfl (by decide) (by decide) (by decide)

/-- Phrase 11 does not occur in the scenario script. -/
theorem scenario_p11 : strContains "studies indicate" (pyLower scenarioScript) = false :=
  scenario_contains_neg _ 's' "tudies indicate".toList rfl (by decide) (by decide) (by decide)

/-- Phrase 12 does not occur in the scenario script. -/
theorem scenario_p12 : strContains "research shows" (pyLower scenarioScript) = false :=
  scenario_contains_neg _ 'r' "esearch shows".toList rfl (by decide) (by decide) (by decide)

/-- Exactly six positive phrases occur in the scenario script. -/
theorem scenario_filter_six :
    (positive_phrases.filter (fun p => strContains p (pyLower scenarioScript))).length = 6 := by
  simp [positive_phrases, List.filter_cons, scenario_p1, scenario_p2, scenario_p3,
    scenario_p4, scenario_p5, scenario_p6, scenario_p7, scenario_p8, scenario_p9,
    scenario_p10, scenario_p11, scenario_p12]

/-- Claim C5 witness: the 2100-word scenario script contains exactly six
distinct positive phrases, so the checker scores it 80 and classifies it
"high", as the amended claim states. -/
theorem originality_score_spec_witness :
    (positive_phrases.filter (fun p => strContains p (pyLower scenarioScript))).length = 6
    ∧ pyWordCount scenarioScript ≥ 2000
    ∧ originality_score scenarioScript = 80
    ∧ (check_script_originality scenarioScript).1 = "high" := by
  have hwc : pyWordCount scenarioScript ≥ 2000 := by
    rw [scenario_wordcount]
    norm_num
  obtain ⟨h80, hhigh⟩ := (originality_score_spec scenarioScript).2.2 scenario_filter_six hwc
  exact ⟨scenario_filter_six, hwc, h80, hhigh⟩
